import Mathlib

/-!
Shallow embedding of the `die-agony` puzzle solver (Rust sources under `src/`):
`direction.rs`, `board.rs`, `dice.rs`, `die.rs`, `solver.rs`.

Machine integers (`i16`, `i8`, `usize`) are modelled as `Int` / `Nat`; the Rust `%`
and `/` on signed integers truncate toward zero, so they are modelled by
`Int.tmod` and `Int.tdiv`. The breadth-first search loop of
`Solver::find_solution_journey` is modelled with explicit fuel: `none` means the
fuel ran out, `some none` models the queue running empty (`NotFound`), and
`some (some j)` models an early return with the solution journey `j`.
-/

namespace DieAgony

/-- Rust `Direction` (direction.rs): the orthogonal movements a dice can do. -/
inductive Direction where
  | UP
  | RIGHT
  | DOWN
  | LEFT
deriving DecidableEq

/-- Rust `Direction::iter()` as derived by strum's `EnumIter`: the variants in
declaration order. -/
def Direction.iter : List Direction :=
  [Direction.UP, Direction.RIGHT, Direction.DOWN, Direction.LEFT]

/-- Rust `Position` (board.rs): a (row, column) pair. -/
abbrev Position := Nat × Nat

/-- Rust `BOARD_WIDTH` (board.rs). -/
def BOARD_WIDTH : Nat := 6

/-- Rust `END_CELL_POSITION` (board.rs). -/
def END_CELL_POSITION : Position := (0, BOARD_WIDTH - 1)

/-- Rust `Cell` (board.rs): a value together with its position on the board. -/
structure Cell where
  value : Int
  position : Position
deriving DecidableEq

/-- Rust `Cell::get_value` (board.rs). -/
def Cell.get_value (c : Cell) : Int := c.value

/-- Rust `Cell::is_end_cell` (board.rs). -/
def Cell.is_end_cell (c : Cell) : Bool := c.position = END_CELL_POSITION

/-- Rust `Cell::get_position` (board.rs). -/
def Cell.get_position (c : Cell) : Position := c.position

/-- Rust `Board` (board.rs): a BOARD_WIDTH x BOARD_WIDTH matrix of values. -/
structure Board where
  board : List (List Int)

/-- Rust `Board::new` (board.rs): the fixed puzzle data. -/
def Board.new : Board :=
  { board :=
      [[57, 33, 132, 268, 492, 732],
       [81, 123, 240, 443, 353, 508],
       [186, 42, 195, 704, 452, 228],
       [-7, 2, 357, 452, 317, 395],
       [5, 23, -4, 592, 445, 620],
       [0, 77, 32, 403, 337, 452]] }

/-- The array indexing `self.board[row][col]` (board.rs); every use in the
source is in bounds, the defaults are never hit. -/
def Board.value_at (b : Board) (position : Position) : Int :=
  (b.board.getD position.1 []).getD position.2 0

/-- Rust `Board::start_cell` (board.rs). -/
def Board.start_cell (b : Board) : Cell :=
  { value := b.value_at (BOARD_WIDTH - 1, 0), position := (BOARD_WIDTH - 1, 0) }

/-- Rust `Board::move_up` (board.rs). -/
def Board.move_up (b : Board) (curr_cell : Cell) : Option Cell :=
  let (curr_row, curr_col) := curr_cell.position
  if curr_row > 0 then
    let row_up := curr_row - 1
    some { value := b.value_at (row_up, curr_col), position := (row_up, curr_col) }
  else
    none

/-- Rust `Board::move_down` (board.rs). -/
def Board.move_down (b : Board) (curr_cell : Cell) : Option Cell :=
  let (curr_row, curr_col) := curr_cell.position
  if curr_row < BOARD_WIDTH - 1 then
    let row_down := curr_row + 1
    some { value := b.value_at (row_down, curr_col), position := (row_down, curr_col) }
  else
    none

/-- Rust `Board::move_left` (board.rs). -/
def Board.move_left (b : Board) (curr_cell : Cell) : Option Cell :=
  let (curr_row, curr_col) := curr_cell.position
  if curr_col > 0 then
    let col_left := curr_col - 1
    some { value := b.value_at (curr_row, col_left), position := (curr_row, col_left) }
  else
    none

/-- Rust `Board::move_right` (board.rs). -/
def Board.move_right (b : Board) (curr_cell : Cell) : Option Cell :=
  let (curr_row, curr_col) := curr_cell.position
  if curr_col < BOARD_WIDTH - 1 then
    let col_right := curr_col + 1
    some { value := b.value_at (curr_row, col_right), position := (curr_row, col_right) }
  else
    none

/-- Rust `Board::move_in` (board.rs). -/
def Board.move_in (b : Board) (curr_cell : Cell) (direction : Direction) : Option Cell :=
  match direction with
  | Direction.UP => b.move_up curr_cell
  | Direction.RIGHT => b.move_right curr_cell
  | Direction.DOWN => b.move_down curr_cell
  | Direction.LEFT => b.move_left curr_cell

/-- Rust `Board::compute_sum_of_unvisited_cells` (board.rs); the `HashSet<&Position>`
is modelled by a list of positions, whose membership test agrees with the set's. -/
def Board.compute_sum_of_unvisited_cells (b : Board)
    (unique_visited_positions : List Position) : Int :=
  (List.range BOARD_WIDTH).foldl (fun sum row =>
    (List.range BOARD_WIDTH).foldl (fun sum col =>
      if (row, col) ∈ unique_visited_positions then sum
      else sum + b.value_at (row, col)) sum) 0

/-- Rust `Dice` (dice.rs): the six optional face values. -/
structure Dice where
  top : Option Int
  bottom : Option Int
  left : Option Int
  right : Option Int
  front : Option Int
  back : Option Int
deriving DecidableEq

/-- Rust `Dice::default()` as derived by Rust's `Default`: every face unknown. -/
def Dice.default : Dice :=
  { top := none, bottom := none, left := none, right := none, front := none, back := none }

/-- Rust `Dice::set_top` (dice.rs). -/
def Dice.set_top (d : Dice) (top : Int) : Dice :=
  { d with top := some top }

/-- Rust `Dice::roll_up` (dice.rs). -/
def Dice.roll_up (d : Dice) : Dice :=
  { top := d.back, bottom := d.front, left := d.left, right := d.right,
    front := d.top, back := d.bottom }

/-- Rust `Dice::roll_down` (dice.rs). -/
def Dice.roll_down (d : Dice) : Dice :=
  { top := d.front, bottom := d.back, left := d.left, right := d.right,
    front := d.bottom, back := d.top }

/-- Rust `Dice::roll_left` (dice.rs). -/
def Dice.roll_left (d : Dice) : Dice :=
  { top := d.right, bottom := d.left, left := d.top, right := d.bottom,
    front := d.front, back := d.back }

/-- Rust `Dice::roll_right` (dice.rs). -/
def Dice.roll_right (d : Dice) : Dice :=
  { top := d.left, bottom := d.right, left := d.bottom, right := d.top,
    front := d.front, back := d.back }

/-- Rust `Dice::roll_in` (dice.rs). -/
def Dice.roll_in (d : Dice) (direction : Direction) : Dice :=
  match direction with
  | Direction.UP => d.roll_up
  | Direction.RIGHT => d.roll_right
  | Direction.DOWN => d.roll_down
  | Direction.LEFT => d.roll_left

/-- Rust `Dice::get_top` (dice.rs). -/
def Dice.get_top (d : Dice) : Option Int := d.top

/-- Rust `Journey` (solver.rs). -/
structure Journey where
  dice : Dice
  turn : Int
  visited_cells : List Cell
deriving DecidableEq

/-- Rust `Journey::get_last_visited_cell` (solver.rs); the source `expect`s on an
empty journey (which never occurs, see C4), modelled by `none`. -/
def Journey.get_last_visited_cell (j : Journey) : Option Cell :=
  j.visited_cells.getLast?

/-- The check `journey.get_last_visited_cell().is_end_cell()` (solver.rs line 240); the
never-occurring empty case is mapped to `false`. -/
def Journey.reaches_end (j : Journey) : Bool :=
  match j.get_last_visited_cell with
  | some c => c.is_end_cell
  | none => false

/-- Rust `MovementOutcome` (solver.rs). -/
inductive MovementOutcome where
  | SolutionJourney (j : Journey)
  | ValidJourney (j : Journey)
  | Invalid
deriving DecidableEq

/-- Rust `Solution` (solver.rs). The `Found` variant of the source also carries the
explanation string produced by `Journey::explain`; string rendering is
peripheral output (spec section 1), its one piece of logic — the direction
classification of consecutive cells — is modelled by `classify_step` below. -/
inductive Solution where
  | Found (sum_of_unvisited_cells : Int)
  | NotFound
deriving DecidableEq

namespace Solver

/-- The `valid_journey` construction inside `Solver::try_dice_movement`
(solver.rs lines 207-238); `none` models the early `return MovementOutcome::Invalid`. -/
def valid_journey_of_movement (dice : Dice) (score : Int) (new_turn : Int) (cell : Cell)
    (visited_cells : List Cell) : Option Journey :=
  match dice.get_top with
  | some dice_top =>
    let new_score := score + new_turn * dice_top
    if new_score ≠ cell.get_value then none
    else
      some { dice := dice, turn := new_turn, visited_cells := visited_cells ++ [cell] }
  | none =>
    let new_score := cell.get_value
    let score_diff := new_score - score
    if score_diff.tmod new_turn ≠ 0 then none
    else
      let new_dice_top := score_diff.tdiv new_turn
      some { dice := dice.set_top new_dice_top, turn := new_turn,
             visited_cells := visited_cells ++ [cell] }

/-- Rust `Solver::try_dice_movement` (solver.rs lines 190-245). -/
def try_dice_movement (dice : Dice) (score : Int) (new_turn : Int) (cell : Cell)
    (visited_cells : List Cell) : MovementOutcome :=
  match valid_journey_of_movement dice score new_turn cell visited_cells with
  | none => MovementOutcome.Invalid
  | some valid_journey =>
    if valid_journey.reaches_end then MovementOutcome.SolutionJourney valid_journey
    else MovementOutcome.ValidJourney valid_journey

/-- The direction loop of `Solver::find_solution_journey` (solver.rs lines 165-183)
over the remaining directions (the source's local `rolled_dice` binding is
inlined): `Except.error` models the early `return` of a solution journey,
`Except.ok` collects the journeys pushed to the back of the queue, in push
order. -/
def scan_directions (board : Board) (journey : Journey) (last_visited_cell : Cell)
    (new_turn : Int) : List Direction → Except Journey (List Journey)
  | [] => Except.ok []
  | direction :: rest =>
    match board.move_in last_visited_cell direction with
    | none => scan_directions board journey last_visited_cell new_turn rest
    | some cell =>
      match try_dice_movement (journey.dice.roll_in direction) last_visited_cell.get_value
              new_turn cell journey.visited_cells with
      | MovementOutcome.SolutionJourney j => Except.error j
      | MovementOutcome.ValidJourney j =>
        match scan_directions board journey last_visited_cell new_turn rest with
        | Except.error solution_journey => Except.error solution_journey
        | Except.ok js => Except.ok (j :: js)
      | MovementOutcome.Invalid => scan_directions board journey last_visited_cell new_turn rest

/-- One iteration of the while loop of `Solver::find_solution_journey`
(solver.rs lines 161-184) on a dequeued journey. The unreachable empty-journey
case (the source's `expect`) yields no new journeys. -/
def process_journey (board : Board) (journey : Journey) : Except Journey (List Journey) :=
  match journey.get_last_visited_cell with
  | none => Except.ok []
  | some last_visited_cell =>
    scan_directions board journey last_visited_cell (journey.turn + 1) Direction.iter

/-- Rust `Solver::find_solution_journey` (solver.rs lines 160-188), with explicit
fuel bounding the number of dequeues: `none` = fuel exhausted, `some none` =
queue ran empty (`NotFound`), `some (some j)` = solution journey found. -/
def find_solution_journey (board : Board) : Nat → List Journey → Option (Option Journey)
  | 0, _ => none
  | _ + 1, [] => some none
  | fuel + 1, journey :: rest =>
    match process_journey board journey with
    | Except.error solution_journey => some (some solution_journey)
    | Except.ok new_journeys => find_solution_journey board fuel (rest ++ new_journeys)

/-- The `first_journey` built by `Solver::new` (solver.rs lines 120-132). -/
def initial_journey : Journey :=
  { dice := Dice.default, turn := 0, visited_cells := [Board.new.start_cell] }

/-- Rust `Solver::compute_sum_of_unvisited_cells` (solver.rs lines 145-154); the
de-duplicating `HashSet` is modelled by the list of visited positions, whose
membership test agrees with the set's. -/
def compute_sum_of_unvisited_cells (board : Board) (solution_journey : Journey) : Int :=
  board.compute_sum_of_unvisited_cells (solution_journey.visited_cells.map Cell.get_position)

/-- Rust `Solver::new().solve()` (solver.rs lines 120-143), with the BFS fuel made
explicit. -/
def solve (fuel : Nat) : Option Solution :=
  let board := Board.new
  match find_solution_journey board fuel [initial_journey] with
  | none => none
  | some (some solution_journey) =>
    some (Solution.Found (compute_sum_of_unvisited_cells board solution_journey))
  | some none => some Solution.NotFound

/-- All valid children of one journey, in direction-iteration order: the
journeys `find_solution_journey` either returns (solution) or pushes (valid)
when expanding this journey. Used to enumerate the rule-consistent journeys
level by level. -/
def expand_all (journey : Journey) : List Journey :=
  match journey.get_last_visited_cell with
  | none => []
  | some last_visited_cell =>
    (Direction.iter.map (fun direction =>
      match Board.new.move_in last_visited_cell direction with
      | none => []
      | some cell =>
        match try_dice_movement (journey.dice.roll_in direction) last_visited_cell.get_value
                (journey.turn + 1) cell journey.visited_cells with
        | MovementOutcome.SolutionJourney j => [j]
        | MovementOutcome.ValidJourney j => [j]
        | MovementOutcome.Invalid => [])).flatten

/-- Level `n` of the search tree: every rule-consistent journey with `n` rolls. -/
def levels : Nat → List Journey
  | 0 => [initial_journey]
  | n + 1 => ((levels n).map expand_all).flatten

/-- Checks that none of the journeys in the first `n` levels starting from the
given frontier has reached the end cell. -/
def goal_free_upto : Nat → List Journey → Bool
  | 0, _ => true
  | n + 1, frontier =>
    frontier.all (fun j => ! j.reaches_end) &&
      goal_free_upto n ((frontier.map expand_all).flatten)

/-- One valid movement of the search: journey `c` is produced from journey `p`
by rolling the dice to an in-bounds neighboring cell, the movement being
accepted by `try_dice_movement` (as a solution or as a valid journey). This is
exactly the child-production step of `Solver::find_solution_journey`. -/
def journey_step (board : Board) (p c : Journey) : Prop :=
  ∃ last_visited_cell direction cell,
    p.get_last_visited_cell = some last_visited_cell ∧
    board.move_in last_visited_cell direction = some cell ∧
    (try_dice_movement (p.dice.roll_in direction) last_visited_cell.get_value (p.turn + 1)
        cell p.visited_cells = MovementOutcome.SolutionJourney c ∨
     try_dice_movement (p.dice.roll_in direction) last_visited_cell.get_value (p.turn + 1)
        cell p.visited_cells = MovementOutcome.ValidJourney c)

/-- The journeys reachable in the search on the fixed board: the initial
journey, and every journey produced from a reachable one by a valid movement
(whether placed in the frontier or returned as the solution). -/
inductive Reachable : Journey → Prop
  | init : Reachable initial_journey
  | step {p c : Journey} : Reachable p → journey_step Board.new p c → Reachable c

/-- The solution journey the breadth-first search returns on the fixed board
(32 rolls, ending on the end cell). -/
def solution_journey : Journey :=
  { dice := { top := some 7, bottom := some 9, left := some 9, right := some (-3),
              front := some 5, back := some (-9) },
    turn := 32,
    visited_cells :=
      [⟨0, (5, 0)⟩, ⟨5, (4, 0)⟩, ⟨23, (4, 1)⟩, ⟨(-4), (4, 2)⟩,
       ⟨32, (5, 2)⟩, ⟨77, (5, 1)⟩, ⟨23, (4, 1)⟩, ⟨2, (3, 1)⟩,
       ⟨42, (2, 1)⟩, ⟨123, (1, 1)⟩, ⟨33, (0, 1)⟩, ⟨132, (0, 2)⟩,
       ⟨240, (1, 2)⟩, ⟨123, (1, 1)⟩, ⟨81, (1, 0)⟩, ⟨186, (2, 0)⟩,
       ⟨42, (2, 1)⟩, ⟨195, (2, 2)⟩, ⟨357, (3, 2)⟩, ⟨452, (3, 3)⟩,
       ⟨592, (4, 3)⟩, ⟨403, (5, 3)⟩, ⟨337, (5, 4)⟩, ⟨452, (5, 5)⟩,
       ⟨620, (4, 5)⟩, ⟨395, (3, 5)⟩, ⟨317, (3, 4)⟩, ⟨452, (3, 3)⟩,
       ⟨704, (2, 3)⟩, ⟨443, (1, 3)⟩, ⟨353, (1, 4)⟩, ⟨508, (1, 5)⟩,
       ⟨732, (0, 5)⟩] }

end Solver

/-- The direction classification performed by `Journey::explain` (solver.rs
lines 44-61) on one consecutive pair of visited cells; `none` models the fatal
non-orthogonal branch. -/
def classify_step (second_to_last_visited_cell last_visited_cell : Cell) : Option Direction :=
  let (second_to_last_row, second_to_last_col) := second_to_last_visited_cell.get_position
  let (last_row, last_col) := last_visited_cell.get_position
  if second_to_last_row < last_row ∧ second_to_last_col = last_col then
    some Direction.DOWN
  else if second_to_last_row > last_row ∧ second_to_last_col = last_col then
    some Direction.UP
  else if second_to_last_col < last_col ∧ second_to_last_row = last_row then
    some Direction.RIGHT
  else if second_to_last_col > last_col ∧ second_to_last_row = last_row then
    some Direction.LEFT
  else
    none

/-- Modelled from the spec: the rotation table of section 4.2 of the spec, one
row per roll direction, each new face given by the table's entry. -/
def spec_table_roll (d : Dice) (direction : Direction) : Dice :=
  match direction with
  | Direction.UP =>
    { top := d.back, bottom := d.front, left := d.left, right := d.right,
      front := d.top, back := d.bottom }
  | Direction.DOWN =>
    { top := d.front, bottom := d.back, left := d.left, right := d.right,
      front := d.bottom, back := d.top }
  | Direction.LEFT =>
    { top := d.right, bottom := d.left, left := d.top, right := d.bottom,
      front := d.front, back := d.back }
  | Direction.RIGHT =>
    { top := d.left, bottom := d.right, left := d.bottom, right := d.top,
      front := d.front, back := d.back }

/-- Modelled from the spec: the opposite of a direction (section 8 of the
spec pairs UP with DOWN and LEFT with RIGHT). -/
def Direction.opposite : Direction → Direction
  | Direction.UP => Direction.DOWN
  | Direction.DOWN => Direction.UP
  | Direction.LEFT => Direction.RIGHT
  | Direction.RIGHT => Direction.LEFT

/-- The six faces of a dice, as a list. -/
def Dice.faces (d : Dice) : List (Option Int) :=
  [d.top, d.bottom, d.left, d.right, d.front, d.back]

/-- Predicate: `d'` keeps every known face of `d`: any face slot holding a known value in
`d` holds the same value in `d'`. -/
def dice_extends (d d' : Dice) : Prop :=
  (∀ v, d.top = some v → d'.top = some v) ∧
  (∀ v, d.bottom = some v → d'.bottom = some v) ∧
  (∀ v, d.left = some v → d'.left = some v) ∧
  (∀ v, d.right = some v → d'.right = some v) ∧
  (∀ v, d.front = some v → d'.front = some v) ∧
  (∀ v, d.back = some v → d'.back = some v)

/-- The `Die` type of die.rs (an unused sibling of `Dice`, with `i8` faces). -/
structure Die where
  top : Option Int
  bottom : Option Int
  left : Option Int
  right : Option Int
  front : Option Int
  back : Option Int
deriving DecidableEq

/-- Rust `Die::roll_forward` (die.rs). -/
def Die.roll_forward (d : Die) : Die :=
  { top := d.back, bottom := d.front, left := d.left, right := d.right,
    front := d.top, back := d.bottom }

/-- Rust `Die::roll_backward` (die.rs). -/
def Die.roll_backward (d : Die) : Die :=
  { top := d.front, bottom := d.back, left := d.left, right := d.right,
    front := d.bottom, back := d.top }

/-- Rust `Die::roll_left` (die.rs). -/
def Die.roll_left (d : Die) : Die :=
  { top := d.right, bottom := d.left, left := d.top, right := d.bottom,
    front := d.front, back := d.back }

/-- Rust `Die::roll_right` (die.rs). -/
def Die.roll_right (d : Die) : Die :=
  { top := d.left, bottom := d.right, left := d.bottom, right := d.top,
    front := d.front, back := d.back }

/-- The face-for-face correspondence between die.rs's `Die` and dice.rs's
`Dice` (both face types are modelled as `Int`). -/
def die_to_dice (d : Die) : Dice :=
  { top := d.top, bottom := d.bottom, left := d.left, right := d.right,
    front := d.front, back := d.back }

/-- The movement-validation rule as the spec states it (sections 4.3 and 8),
as a property of `try_dice_movement`: with a known top face `t` the move is
valid iff `score + new_turn * t` equals the cell value; with an unknown top
face it is valid iff the score difference is evenly divisible by the new turn,
the inferred top face being pinned to the exact quotient; in the valid cases
the journey appends the target cell, carries the new turn, and is classified
as a solution exactly when the appended cell is the goal cell (0,5). -/
def movement_rule_spec (dice : Dice) (score new_turn : Int) (cell : Cell)
    (visited_cells : List Cell) : Prop :=
  (∀ t, dice.get_top = some t →
    ((score + new_turn * t ≠ cell.get_value →
        Solver.try_dice_movement dice score new_turn cell visited_cells =
          MovementOutcome.Invalid) ∧
     (score + new_turn * t = cell.get_value →
        ∃ j, (Solver.try_dice_movement dice score new_turn cell visited_cells =
                if cell.get_position = (0, 5) then MovementOutcome.SolutionJourney j
                else MovementOutcome.ValidJourney j) ∧
             j.dice = dice ∧ j.turn = new_turn ∧
             j.visited_cells = visited_cells ++ [cell]))) ∧
  (dice.get_top = none →
    ((¬ (new_turn ∣ (cell.get_value - score)) →
        Solver.try_dice_movement dice score new_turn cell visited_cells =
          MovementOutcome.Invalid) ∧
     (∀ t, cell.get_value - score = new_turn * t →
        ∃ j, (Solver.try_dice_movement dice score new_turn cell visited_cells =
                if cell.get_position = (0, 5) then MovementOutcome.SolutionJourney j
                else MovementOutcome.ValidJourney j) ∧
             j.dice = dice.set_top t ∧ j.turn = new_turn ∧
             j.visited_cells = visited_cells ++ [cell])))

/-- The journey produced by the first accepted movement of the search (turn 1,
from the start cell up to the cell at (4,0) of value 5, pinning the top face
to 5). -/
def first_step_journey : Journey :=
  { dice := Dice.default.set_top 5, turn := 1,
    visited_cells := [Board.new.start_cell, ⟨5, (4, 0)⟩] }

/-- The bounds behavior of `move_in` as the spec states it (sections 4.1 and 8)
for a cell at (row, col) of the 6x6 board: each direction returns none exactly
when the neighbor would fall outside the grid, and otherwise the neighboring
cell carrying the board value at its position; together with the start-cell
facts the spec lists. -/
def move_in_spec (cell : Cell) (row col : Nat) : Prop :=
  (Board.new.move_in cell Direction.UP =
     if row = 0 then none
     else some { value := Board.new.value_at (row - 1, col), position := (row - 1, col) }) ∧
  (Board.new.move_in cell Direction.DOWN =
     if row = 5 then none
     else some { value := Board.new.value_at (row + 1, col), position := (row + 1, col) }) ∧
  (Board.new.move_in cell Direction.LEFT =
     if col = 0 then none
     else some { value := Board.new.value_at (row, col - 1), position := (row, col - 1) }) ∧
  (Board.new.move_in cell Direction.RIGHT =
     if col = 5 then none
     else some { value := Board.new.value_at (row, col + 1), position := (row, col + 1) }) ∧
  Board.new.move_in Board.new.start_cell Direction.LEFT = none ∧
  Board.new.move_in Board.new.start_cell Direction.DOWN = none ∧
  Board.new.move_in Board.new.start_cell Direction.UP =
    some { value := 5, position := (4, 0) } ∧
  Board.new.move_in Board.new.start_cell Direction.RIGHT =
    some { value := 77, position := (5, 1) }

/-! Helper lemmas about the movement validation and the search. -/

/-- Any journey built by `valid_journey_of_movement` carries the new turn,
appends the target cell, and either keeps the rolled dice or pins its top
(which was unknown) to the truncated quotient. -/
lemma valid_journey_of_movement_shape {dice : Dice} {score new_turn : Int} {cell : Cell}
    {visited_cells : List Cell} {j : Journey}
    (h : Solver.valid_journey_of_movement dice score new_turn cell visited_cells = some j) :
    j.turn = new_turn ∧ j.visited_cells = visited_cells ++ [cell] ∧
      (j.dice = dice ∨ (dice.get_top = none ∧
        j.dice = dice.set_top ((cell.get_value - score).tdiv new_turn))) := by
  unfold Solver.valid_journey_of_movement at h
  cases hd : dice.get_top with
  | some dice_top =>
    rw [hd] at h
    simp only at h
    split at h
    · exact absurd h (by simp)
    · obtain rfl : _ = j := Option.some_injective _ h
      exact ⟨rfl, rfl, Or.inl rfl⟩
  | none =>
    rw [hd] at h
    simp only at h
    split at h
    · exact absurd h (by simp)
    · obtain rfl : _ = j := Option.some_injective _ h
      exact ⟨rfl, rfl, Or.inr ⟨rfl, rfl⟩⟩

/-- A solution or valid outcome of `try_dice_movement` comes from a journey
built by `valid_journey_of_movement`. -/
lemma try_dice_movement_journey {dice : Dice} {score new_turn : Int} {cell : Cell}
    {visited_cells : List Cell} {j : Journey}
    (h : Solver.try_dice_movement dice score new_turn cell visited_cells =
           MovementOutcome.SolutionJourney j ∨
         Solver.try_dice_movement dice score new_turn cell visited_cells =
           MovementOutcome.ValidJourney j) :
    Solver.valid_journey_of_movement dice score new_turn cell visited_cells = some j := by
  unfold Solver.try_dice_movement at h
  cases hv : Solver.valid_journey_of_movement dice score new_turn cell visited_cells with
  | none => rw [hv] at h; rcases h with h | h <;> exact absurd h (by simp)
  | some j' =>
    rw [hv] at h
    simp only at h
    split at h
    · rcases h with h | h
      · cases h; rfl
      · cases h
    · rcases h with h | h
      · cases h
      · cases h; rfl

/-- Once `valid_journey_of_movement` yields a journey, `try_dice_movement`
classifies it by whether its last cell is the end cell. -/
lemma try_dice_movement_of_valid {dice : Dice} {score new_turn : Int} {cell : Cell}
    {visited_cells : List Cell} {j : Journey}
    (h : Solver.valid_journey_of_movement dice score new_turn cell visited_cells = some j) :
    Solver.try_dice_movement dice score new_turn cell visited_cells =
      if j.reaches_end then MovementOutcome.SolutionJourney j
      else MovementOutcome.ValidJourney j := by
  unfold Solver.try_dice_movement
  rw [h]

/-- A journey produced by one valid movement increments the turn and appends
one cell to the visited list. -/
lemma journey_step_shape {board : Board} {p c : Journey} (h : Solver.journey_step board p c) :
    c.turn = p.turn + 1 ∧ ∃ cell, c.visited_cells = p.visited_cells ++ [cell] := by
  obtain ⟨lc, d, cell, hlast, hmove, hout⟩ := h
  obtain ⟨ht, hv, -⟩ := valid_journey_of_movement_shape (try_dice_movement_journey hout)
  exact ⟨ht, cell, hv⟩

/-- The journey invariant maintained by the search: a reachable journey has a
non-empty visited list headed by the start cell, and its turn counter is the
number of visited cells minus one. -/
lemma reachable_invariant {j : Journey} (h : Solver.Reachable j) :
    j.visited_cells ≠ [] ∧ j.visited_cells.head? = some Board.new.start_cell ∧
      j.turn = (j.visited_cells.length : Int) - 1 := by
  induction h with
  | init => exact ⟨by simp [Solver.initial_journey], rfl, by simp [Solver.initial_journey]⟩
  | step hp hstep ih =>
    obtain ⟨hne, hhead, hturn⟩ := ih
    obtain ⟨ht, cell, hv⟩ := journey_step_shape hstep
    obtain ⟨a, as, hcons⟩ := List.exists_cons_of_ne_nil hne
    rw [hcons] at hhead
    refine ⟨by rw [hv]; simp, ?_, ?_⟩
    · rw [hv, hcons]
      simpa using hhead
    · rw [ht, hturn, hv]
      simp only [List.length_append, List.length_singleton]
      push_cast
      ring

/-- A successful `move_in` always lands on an orthogonally adjacent cell, so
the direction classification of `Journey::explain` recognizes the step. -/
lemma move_in_classify {board : Board} {lc cell : Cell} {d : Direction}
    (h : board.move_in lc d = some cell) : (classify_step lc cell).isSome = true := by
  obtain ⟨lv, r, c⟩ := lc
  cases d with
  | UP =>
    simp only [Board.move_in, Board.move_up] at h
    split at h
    case isTrue hr =>
      cases h
      simp only [classify_step, Cell.get_position, and_true]
      rw [if_neg (by omega : ¬r < r - 1), if_pos (by omega : r > r - 1)]
      rfl
    case isFalse => exact Option.noConfusion h
  | DOWN =>
    simp only [Board.move_in, Board.move_down, BOARD_WIDTH] at h
    split at h
    case isTrue hr =>
      cases h
      simp only [classify_step, Cell.get_position, and_true]
      rw [if_pos (by omega : r < r + 1)]
      rfl
    case isFalse => exact Option.noConfusion h
  | LEFT =>
    simp only [Board.move_in, Board.move_left] at h
    split at h
    case isTrue hc =>
      cases h
      simp only [classify_step, Cell.get_position, and_true]
      rw [if_neg (by omega : ¬(r < r ∧ c = c - 1)),
        if_neg (by omega : ¬(r > r ∧ c = c - 1)), if_neg (by omega : ¬c < c - 1),
        if_pos (by omega : c > c - 1)]
      rfl
    case isFalse => exact Option.noConfusion h
  | RIGHT =>
    simp only [Board.move_in, Board.move_right, BOARD_WIDTH] at h
    split at h
    case isTrue hc =>
      cases h
      simp only [classify_step, Cell.get_position, and_true]
      rw [if_neg (by omega : ¬(r < r ∧ c = c + 1)),
        if_neg (by omega : ¬(r > r ∧ c = c + 1)), if_pos (by omega : c < c + 1)]
      rfl
    case isFalse => exact Option.noConfusion h

/-- Every reachable journey's visited list is an orthogonal chain: each
consecutive pair of cells is recognized by the direction classification. -/
lemma reachable_chain {j : Journey} (h : Solver.Reachable j) :
    List.Chain' (fun a b => (classify_step a b).isSome = true) j.visited_cells := by
  induction h with
  | init => simp [Solver.initial_journey]
  | @step p c hp hstep ih =>
    obtain ⟨lc, d, cell, hlast, hmove, hout⟩ := hstep
    obtain ⟨-, hv, -⟩ := valid_journey_of_movement_shape (try_dice_movement_journey hout)
    rw [hv, List.chain'_append]
    refine ⟨ih, by simp, ?_⟩
    intro x hx y hy
    have hlast' : p.visited_cells.getLast? = some lc := hlast
    rw [hlast'] at hx
    have hx' : x = lc := by
      have := hx
      simp only [Option.mem_def, Option.some.injEq] at this
      exact this.symm
    have hy' : y = cell := by
      have := hy
      simp only [List.head?_cons, Option.mem_def, Option.some.injEq] at this
      exact this.symm
    rw [hx', hy']
    exact move_in_classify hmove

/-- The fuel of the search loop only cuts off the computation: once the loop
terminates (with a solution or an empty queue) under some fuel, any larger
fuel yields the same result. -/
lemma find_solution_journey_mono (board : Board) :
    ∀ (fuel fuel' : Nat) (q : List Journey) (r : Option Journey), fuel ≤ fuel' →
      Solver.find_solution_journey board fuel q = some r →
      Solver.find_solution_journey board fuel' q = some r := by
  intro fuel
  induction fuel with
  | zero =>
    intro fuel' q r _ h
    exact absurd h (by simp [Solver.find_solution_journey])
  | succ n ih =>
    intro fuel' q r hle h
    obtain ⟨m, rfl⟩ : ∃ m, fuel' = m + 1 := ⟨fuel' - 1, by omega⟩
    cases q with
    | nil => simpa [Solver.find_solution_journey] using h
    | cons journey rest =>
      rw [Solver.find_solution_journey] at h ⊢
      cases hp : Solver.process_journey board journey with
      | error solution_journey => rw [hp] at h; exact h
      | ok new_journeys => rw [hp] at h; exact ih m (rest ++ new_journeys) r (by omega) h

/-- The search on the fixed board, run with fuel 64, returns the concrete
solution journey. -/
lemma find_solution_journey_base :
    Solver.find_solution_journey Board.new 64 [Solver.initial_journey] =
      some (some Solver.solution_journey) := by decide

/-- Soundness of the direction loop: a solution it returns, and every journey
it pushes, is produced from the expanded journey by one valid movement. -/
lemma scan_directions_sound {board : Board} {journey : Journey} {lc : Cell}
    (hlast : journey.get_last_visited_cell = some lc) :
    ∀ dirs : List Direction,
      (∀ s, Solver.scan_directions board journey lc (journey.turn + 1) dirs =
          Except.error s → Solver.journey_step board journey s) ∧
      (∀ js, Solver.scan_directions board journey lc (journey.turn + 1) dirs =
          Except.ok js → ∀ x ∈ js, Solver.journey_step board journey x) := by
  intro dirs
  induction dirs with
  | nil =>
    constructor
    · intro s h
      exact absurd h (by simp [Solver.scan_directions])
    · intro js h x hx
      rw [Solver.scan_directions] at h
      obtain rfl : [] = js := by injection h
      cases hx
  | cons direction rest ih =>
    constructor
    · intro s h
      rw [Solver.scan_directions] at h
      split at h
      · exact ih.1 s h
      · rename_i cell hm
        split at h
        · rename_i j ht
          obtain rfl : j = s := by injection h
          exact ⟨lc, direction, cell, hlast, hm, Or.inl ht⟩
        · rename_i j ht
          split at h
          · rename_i s' hrest
            obtain rfl : s' = s := by injection h
            exact ih.1 _ hrest
          · cases h
        · rename_i ht
          exact ih.1 s h
    · intro js h x hx
      rw [Solver.scan_directions] at h
      split at h
      · exact ih.2 js h x hx
      · rename_i cell hm
        split at h
        · cases h
        · rename_i j ht
          split at h
          · cases h
          · rename_i js' hrest
            obtain rfl : j :: js' = js := by injection h
            rcases hx with _ | hx'
            · exact ⟨lc, direction, cell, hlast, hm, Or.inr ht⟩
            · exact ih.2 js' hrest x (by assumption)
        · rename_i ht
          exact ih.2 js h x hx

/-- Soundness of one loop iteration: solutions returned and journeys pushed
come from one valid movement of the dequeued journey. -/
lemma process_journey_sound {board : Board} {journey : Journey} :
    (∀ s, Solver.process_journey board journey = Except.error s →
        Solver.journey_step board journey s) ∧
    (∀ js, Solver.process_journey board journey = Except.ok js →
        ∀ x ∈ js, Solver.journey_step board journey x) := by
  unfold Solver.process_journey
  cases hlast : journey.get_last_visited_cell with
  | none =>
    constructor
    · intro s h
      cases h
    · intro js h x hx
      obtain rfl : [] = js := by injection h
      cases hx
  | some lc => exact scan_directions_sound hlast Direction.iter

/-- Every solution journey the fuelled search returns from a queue of
reachable journeys is itself reachable. -/
lemma find_solution_journey_reachable :
    ∀ (fuel : Nat) (q : List Journey) (j : Journey), (∀ p ∈ q, Solver.Reachable p) →
      Solver.find_solution_journey Board.new fuel q = some (some j) →
      Solver.Reachable j := by
  intro fuel
  induction fuel with
  | zero =>
    intro q j _ h
    exact absurd h (by simp [Solver.find_solution_journey])
  | succ n ih =>
    intro q j hq h
    cases q with
    | nil =>
      rw [Solver.find_solution_journey] at h
      obtain h' : (none : Option Journey) = some j := by injection h
      cases h'
    | cons journey rest =>
      rw [Solver.find_solution_journey] at h
      cases hp : Solver.process_journey Board.new journey with
      | error solution_journey =>
        rw [hp] at h
        obtain rfl : solution_journey = j := by
          have h' := h
          simp only [Option.some.injEq] at h'
          exact h'
        exact Solver.Reachable.step (hq journey (by simp))
          (process_journey_sound.1 solution_journey hp)
      | ok new_journeys =>
        rw [hp] at h
        refine ih (rest ++ new_journeys) j ?_ h
        intro p hp'
        rcases List.mem_append.mp hp' with hmem | hmem
        · exact hq p (by simp [hmem])
        · exact Solver.Reachable.step (hq journey (by simp))
            (process_journey_sound.2 new_journeys hp p hmem)

/-- Membership in levels: every reachable journey with `n` visited cells lies
in level `n - 1` of the level enumeration. -/
lemma reachable_mem_levels {j : Journey} (h : Solver.Reachable j) :
    j ∈ Solver.levels (j.visited_cells.length - 1) := by
  induction h with
  | init =>
    show Solver.initial_journey ∈ Solver.levels 0
    have h0 : Solver.levels 0 = [Solver.initial_journey] := rfl
    rw [h0]
    simp
  | @step p c hp hstep ih =>
    obtain ⟨lc, d, cell, hlast, hmove, hout⟩ := hstep
    obtain ⟨-, hv, -⟩ := valid_journey_of_movement_shape (try_dice_movement_journey hout)
    have hpne : p.visited_cells ≠ [] := by
      intro he
      rw [Journey.get_last_visited_cell, he] at hlast
      cases hlast
    have hlen : c.visited_cells.length - 1 = (p.visited_cells.length - 1) + 1 := by
      rw [hv]
      simp only [List.length_append, List.length_singleton]
      have : p.visited_cells.length ≠ 0 := fun he => hpne (List.length_eq_zero.mp he)
      omega
    have hsucc : ∀ n : Nat, Solver.levels (n + 1) =
        ((Solver.levels n).map Solver.expand_all).flatten := fun n => rfl
    rw [hlen, hsucc]
    apply List.mem_flatten.mpr
    refine ⟨Solver.expand_all p, List.mem_map_of_mem Solver.expand_all ih, ?_⟩
    unfold Solver.expand_all
    rw [hlast]
    apply List.mem_flatten.mpr
    refine ⟨_, List.mem_map_of_mem _ (show d ∈ Direction.iter by
      cases d <;> simp [Direction.iter]), ?_⟩
    simp only [hmove]
    rcases hout with hout | hout <;> simp [hout]

/-- If `goal_free_upto n` accepts the frontier of level `k`, then no journey
in the next `n` levels reaches the end cell. -/
lemma goal_free_upto_spec :
    ∀ (n k : Nat), Solver.goal_free_upto n (Solver.levels k) = true →
      ∀ i, i < n → ∀ x ∈ Solver.levels (k + i), x.reaches_end = false := by
  intro n
  induction n with
  | zero =>
    intro k _ i hi
    omega
  | succ n ih =>
    intro k h i hi x hx
    rw [Solver.goal_free_upto, Bool.and_eq_true] at h
    obtain ⟨h1, h2⟩ := h
    cases i with
    | zero =>
      have := List.all_eq_true.mp h1 x (by simpa using hx)
      simpa using this
    | succ i =>
      have hnext : ((Solver.levels k).map Solver.expand_all).flatten = Solver.levels (k + 1) :=
        rfl
      rw [hnext] at h2
      exact ih (k + 1) h2 i (by omega) x
        (by rw [show (k + 1) + i = k + (i + 1) by omega]; exact hx)

/-- The first 32 levels of the search contain no journey on the end cell. -/
lemma levels_goal_free : ∀ k, k < 32 → ∀ x ∈ Solver.levels k, x.reaches_end = false := by
  have h : Solver.goal_free_upto 32 (Solver.levels 0) = true := by decide
  intro k hk x hx
  have := goal_free_upto_spec 32 0 h k hk x (by simpa using hx)
  exact this

/-! Claim theorems. -/

/-- C1: running the solver on the fixed built-in board returns `Found` with
the sum of the values of the board cells never visited by the winning journey
equal to 1935, for every fuel large enough to let the breadth-first search
finish (64 dequeues suffice); in particular the fuelled loop never reports
`NotFound` on this board. -/
theorem c1_solve_found_1935 (fuel : Nat) (h : 64 ≤ fuel) :
    Solver.solve fuel = some (Solution.Found 1935) := by
  have hf := find_solution_journey_mono Board.new 64 fuel [Solver.initial_journey]
    (some Solver.solution_journey) h find_solution_journey_base
  simp only [Solver.solve]
  rw [hf]
  decide

/-- Closed instance of C1 at fuel 64. -/
theorem c1_solve_found_1935_witness :
    64 ≤ 64 ∧ Solver.solve 64 = some (Solution.Found 1935) :=
  ⟨by norm_num, c1_solve_found_1935 64 (by norm_num)⟩

/-- C3: every roll of a `Dice` (faces possibly unknown) applies exactly the
permutation given by the spec's rotation table, and the list of the six face
slots of the rolled dice is a permutation of the original one — an unknown
face stays unknown, merely moving to a different slot, and no face value is
invented or discarded. -/
theorem c3_roll_in_matches_spec_table (d : Dice) (direction : Direction) :
    d.roll_in direction = spec_table_roll d direction ∧
    (d.roll_in direction).faces.Perm d.faces := by
  cases direction <;>
    exact ⟨rfl, List.perm_iff_count.mpr (fun v => by
      simp only [Dice.faces, Dice.roll_in, Dice.roll_up, Dice.roll_down, Dice.roll_left,
        Dice.roll_right, List.count_cons, List.count_nil]
      ring)⟩

/-- A journey ending on the freshly appended cell reaches the end exactly when
that cell sits at the goal position (0,5). -/
lemma reaches_end_append (j : Journey) (visited_cells : List Cell) (cell : Cell)
    (hj : j.visited_cells = visited_cells ++ [cell]) :
    j.reaches_end = decide (cell.get_position = (0, 5)) := by
  unfold Journey.reaches_end Journey.get_last_visited_cell
  rw [hj, List.getLast?_concat]
  simp [Cell.is_end_cell, END_CELL_POSITION, BOARD_WIDTH, Cell.get_position]

/-- C2: `try_dice_movement` implements the movement-validation rule of the
spec for every rolled dice, score, turn at least 1, target cell and prior
visited-cell list. -/
theorem c2_movement_validation (dice : Dice) (score new_turn : Int) (cell : Cell)
    (visited_cells : List Cell) (hn : 1 ≤ new_turn) :
    movement_rule_spec dice score new_turn cell visited_cells := by
  have hturn : new_turn ≠ 0 := by omega
  constructor
  · intro t ht
    constructor
    · intro hne
      unfold Solver.try_dice_movement Solver.valid_journey_of_movement
      rw [ht]
      simp only [if_pos hne]
    · intro heq
      have hv : Solver.valid_journey_of_movement dice score new_turn cell visited_cells =
          some { dice := dice, turn := new_turn, visited_cells := visited_cells ++ [cell] } := by
        unfold Solver.valid_journey_of_movement
        rw [ht]
        simp only [if_neg (not_not_intro heq)]
      refine ⟨{ dice := dice, turn := new_turn, visited_cells := visited_cells ++ [cell] },
        ?_, rfl, rfl, rfl⟩
      rw [try_dice_movement_of_valid hv, reaches_end_append _ visited_cells cell rfl]
      by_cases hp : cell.get_position = (0, 5) <;> simp [hp]
  · intro ht
    constructor
    · intro hndvd
      have hmod : (cell.get_value - score).tmod new_turn ≠ 0 := by
        intro h0
        exact hndvd (Int.dvd_of_tmod_eq_zero h0)
      unfold Solver.try_dice_movement Solver.valid_journey_of_movement
      rw [ht]
      simp only [if_pos hmod]
    · intro t hdiff
      have hmod : (cell.get_value - score).tmod new_turn = 0 :=
        Int.tmod_eq_zero_of_dvd ⟨t, hdiff⟩
      have hquot : (cell.get_value - score).tdiv new_turn = t := by
        rw [hdiff]
        exact Int.mul_tdiv_cancel_left t hturn
      have hv : Solver.valid_journey_of_movement dice score new_turn cell visited_cells =
          some { dice := dice.set_top t, turn := new_turn,
                 visited_cells := visited_cells ++ [cell] } := by
        unfold Solver.valid_journey_of_movement
        rw [ht]
        simp only [if_neg (not_not_intro hmod), hquot]
      refine ⟨{ dice := dice.set_top t, turn := new_turn,
                visited_cells := visited_cells ++ [cell] }, ?_, rfl, rfl, rfl⟩
      rw [try_dice_movement_of_valid hv, reaches_end_append _ visited_cells cell rfl]
      by_cases hp : cell.get_position = (0, 5) <;> simp [hp]

/-- Closed instance of C2 at the first movement of the search, turn 1. -/
theorem c2_movement_validation_witness :
    (1 : Int) ≤ 1 ∧
    movement_rule_spec Dice.default 0 1 ⟨5, (4, 0)⟩ [Board.new.start_cell] :=
  ⟨by norm_num, c2_movement_validation Dice.default 0 1 ⟨5, (4, 0)⟩ [Board.new.start_cell]
    (by norm_num)⟩

/-- C8: a valid or solution outcome of `try_dice_movement` never overwrites a
known face of the rolled dice: the produced journey either keeps the rolled
dice unchanged, or — only in the case where the rolled dice's top face was
unknown — pins the top to an inferred value; every face slot holding a known
value in the rolled dice holds the same value in the produced journey's dice. -/
theorem c8_set_top_only_when_unknown (dice : Dice) (score new_turn : Int) (cell : Cell)
    (visited_cells : List Cell) (j : Journey)
    (h : Solver.try_dice_movement dice score new_turn cell visited_cells =
           MovementOutcome.SolutionJourney j ∨
         Solver.try_dice_movement dice score new_turn cell visited_cells =
           MovementOutcome.ValidJourney j) :
    (j.dice = dice ∨ (dice.get_top = none ∧ ∃ t, j.dice = dice.set_top t)) ∧
    dice_extends dice j.dice := by
  obtain ⟨-, -, hd⟩ := valid_journey_of_movement_shape (try_dice_movement_journey h)
  rcases hd with hd | ⟨htop, hd⟩
  · refine ⟨Or.inl hd, ?_⟩
    rw [hd]
    exact ⟨fun _ h => h, fun _ h => h, fun _ h => h, fun _ h => h, fun _ h => h, fun _ h => h⟩
  · refine ⟨Or.inr ⟨htop, _, hd⟩, ?_⟩
    rw [hd]
    have htop' : dice.top = none := htop
    refine ⟨?_, fun _ h => h, fun _ h => h, fun _ h => h, fun _ h => h, fun _ h => h⟩
    intro v hv
    rw [htop'] at hv
    cases hv

/-- Closed instance of C8 at the first movement of the search: the rolled dice
is all-unknown, and the accepted move pins its top face. -/
theorem c8_set_top_only_when_unknown_witness :
    (Solver.try_dice_movement Dice.default 0 1 ⟨5, (4, 0)⟩ [Board.new.start_cell] =
       MovementOutcome.SolutionJourney first_step_journey ∨
     Solver.try_dice_movement Dice.default 0 1 ⟨5, (4, 0)⟩ [Board.new.start_cell] =
       MovementOutcome.ValidJourney first_step_journey) ∧
    ((first_step_journey.dice = Dice.default ∨
      (Dice.default.get_top = none ∧
       ∃ t, first_step_journey.dice = Dice.default.set_top t)) ∧
     dice_extends Dice.default first_step_journey.dice) :=
  ⟨Or.inr (by decide),
   c8_set_top_only_when_unknown Dice.default 0 1 ⟨5, (4, 0)⟩ [Board.new.start_cell]
     first_step_journey (Or.inr (by decide))⟩

/-- C5: any solution journey the breadth-first search returns has minimal
turn count among all rule-consistent journeys that reach the goal cell: if the
fuelled search returns `j`, then every reachable journey whose last visited
cell is the end cell takes at least as many moves as `j`. -/
theorem c5_bfs_first_found_minimal (fuel : Nat) (j r : Journey)
    (hj : Solver.find_solution_journey Board.new fuel [Solver.initial_journey] =
      some (some j))
    (hr : Solver.Reachable r) (hend : r.reaches_end = true) :
    j.turn ≤ r.turn := by
  have h1 := find_solution_journey_mono Board.new fuel (max fuel 64) [Solver.initial_journey]
    (some j) (le_max_left fuel 64) hj
  have h2 := find_solution_journey_mono Board.new 64 (max fuel 64) [Solver.initial_journey]
    (some Solver.solution_journey) (le_max_right fuel 64) find_solution_journey_base
  rw [h1] at h2
  obtain rfl : j = Solver.solution_journey := by
    injection h2 with h2a
    injection h2a with h2b
  obtain ⟨hne, -, hturn⟩ := reachable_invariant hr
  have hlen1 : 0 < r.visited_cells.length := List.length_pos.mpr hne
  have hge : ¬(r.visited_cells.length - 1 < 32) := by
    intro hlt
    have hfree := levels_goal_free (r.visited_cells.length - 1) hlt r
      (reachable_mem_levels hr)
    rw [hend] at hfree
    cases hfree
  have hturn32 : Solver.solution_journey.turn = 32 := rfl
  rw [hturn32, hturn]
  omega

/-- Closed instance of C5: the search at fuel 64 returns the concrete solution
journey, which is reachable, ends on the goal cell, and trivially bounds its
own turn count. -/
theorem c5_bfs_first_found_minimal_witness :
    Solver.find_solution_journey Board.new 64 [Solver.initial_journey] =
      some (some Solver.solution_journey) ∧
    Solver.solution_journey.reaches_end = true ∧
    Solver.solution_journey.turn ≤ Solver.solution_journey.turn :=
  ⟨find_solution_journey_base, by decide,
   c5_bfs_first_found_minimal 64 Solver.solution_journey Solver.solution_journey
     find_solution_journey_base
     (find_solution_journey_reachable 64 [Solver.initial_journey] Solver.solution_journey
       (fun p hp => by
         rw [List.mem_singleton] at hp
         exact hp ▸ Solver.Reachable.init)
       find_solution_journey_base)
     (by decide)⟩

/-- C6: on the 6x6 board, `move_in` returns none exactly when the neighbor
would fall outside the grid, and otherwise the neighboring cell (UP decreases
the row, DOWN increases it, LEFT decreases the column, RIGHT increases it)
carrying the board value at that position; in particular, from the start cell
(5,0), LEFT and DOWN return none, UP returns the cell at (4,0) and RIGHT
returns the cell at (5,1). -/
theorem c6_move_in_bounds (cell : Cell) (row col : Nat)
    (hpos : cell.get_position = (row, col)) (hrow : row < 6) (hcol : col < 6) :
    move_in_spec cell row col := by
  have hp : cell.position = (row, col) := hpos
  refine ⟨?_, ?_, ?_, ?_, by decide, by decide, by decide, by decide⟩
  · simp only [Board.move_in, Board.move_up, hp]
    rcases Nat.eq_zero_or_pos row with h | h
    · subst h
      simp
    · rw [if_pos h, if_neg (by omega)]
  · simp only [Board.move_in, Board.move_down, hp, BOARD_WIDTH]
    by_cases h : row = 5
    · subst h
      simp
    · rw [if_pos (by omega), if_neg h]
  · simp only [Board.move_in, Board.move_left, hp]
    rcases Nat.eq_zero_or_pos col with h | h
    · subst h
      simp
    · rw [if_pos h, if_neg (by omega)]
  · simp only [Board.move_in, Board.move_right, hp, BOARD_WIDTH]
    by_cases h : col = 5
    · subst h
      simp
    · rw [if_pos (by omega), if_neg h]

/-- Closed instance of C6 at the interior cell (3,2). -/
theorem c6_move_in_bounds_witness :
    Cell.get_position ⟨357, (3, 2)⟩ = (3, 2) ∧ 3 < 6 ∧ 2 < 6 ∧
    move_in_spec ⟨357, (3, 2)⟩ 3 2 :=
  ⟨rfl, by norm_num, by norm_num,
   c6_move_in_bounds ⟨357, (3, 2)⟩ 3 2 rfl (by norm_num) (by norm_num)⟩

/-- C4: every journey reachable in the search — the initial journey and every
journey produced by a valid movement, whether placed in the frontier or
returned as the solution — has a non-empty visited-cell list whose first
element is the start cell at (5,0), and its turn counter equals the number of
visited cells minus one. -/
theorem c4_reachable_journey_invariant (j : Journey) (h : Solver.Reachable j) :
    j.visited_cells ≠ [] ∧ j.visited_cells.head? = some Board.new.start_cell ∧
      j.turn = (j.visited_cells.length : Int) - 1 :=
  reachable_invariant h

/-- Closed instance of C4 at the initial journey. -/
theorem c4_reachable_journey_invariant_witness :
    Solver.initial_journey.visited_cells ≠ [] ∧
    Solver.initial_journey.visited_cells.head? = some Board.new.start_cell ∧
    Solver.initial_journey.turn = (Solver.initial_journey.visited_cells.length : Int) - 1 :=
  c4_reachable_journey_invariant Solver.initial_journey Solver.Reachable.init

/-- C9: the visited cells of every journey the search produces form an
orthogonal chain: each consecutive pair differs by exactly one axis-aligned
unit step, so the direction classification of `Journey::explain` always
recognizes the step and its fatal non-orthogonal branch is unreachable. -/
theorem c9_explain_never_panics (j : Journey) (h : Solver.Reachable j) :
    List.Chain' (fun a b => (classify_step a b).isSome = true) j.visited_cells :=
  reachable_chain h

/-- Closed instance of C9 at the journey after the first accepted movement of
the search (start cell, then the cell at (4,0)). -/
theorem c9_explain_never_panics_witness :
    List.Chain' (fun a b => (classify_step a b).isSome = true)
      first_step_journey.visited_cells :=
  c9_explain_never_panics first_step_journey
    (Solver.Reachable.step Solver.Reachable.init
      ⟨Board.new.start_cell, Direction.UP, ⟨5, (4, 0)⟩, rfl, by decide, Or.inr (by decide)⟩)

/-- C7: rolling a dice in a direction and then in the opposite direction
restores it, and rolling the same direction four times in a row restores it. -/
theorem c7_rotation_group (d : Dice) (direction : Direction) :
    (d.roll_in direction).roll_in direction.opposite = d ∧
    ((((d.roll_in direction).roll_in direction).roll_in direction).roll_in direction) = d := by
  cases direction <;> exact ⟨rfl, rfl⟩

/-- C10: the unused `Die` type of die.rs and the canonical `Dice` type of
dice.rs implement the same rotation law: under the face-for-face
correspondence, `roll_forward`, `roll_backward`, `roll_left` and `roll_right`
of `Die` apply exactly the same face permutations as `roll_up`, `roll_down`,
`roll_left` and `roll_right` of `Dice`. -/
theorem c10_die_dice_equivalence (d : Die) :
    die_to_dice d.roll_forward = (die_to_dice d).roll_up ∧
    die_to_dice d.roll_backward = (die_to_dice d).roll_down ∧
    die_to_dice d.roll_left = (die_to_dice d).roll_left ∧
    die_to_dice d.roll_right = (die_to_dice d).roll_right :=
  ⟨rfl, rfl, rfl, rfl⟩

end DieAgony
